import Mathlib

/-!
Verification development for the formatparse pattern compiler and value
extractor.  The definitions below are shallow embeddings of the Rust source
files src/types.rs, src/parser.rs and src/datetime_parse.rs: pure string and
list functions translated clause by clause.  Machine integers of the source
(usize, u8, u32, i64) are modelled as Nat and Int; values that cannot
overflow on the inputs the source feeds them (regex-bounded digit runs) are
noted at each definition.  Rust char classification functions are modelled on
their ASCII behaviour, which is the alphabet every pattern and fragment in
the source uses.
-/

namespace FormatParse

/-- Opening curly brace character, written via its code point so that brace
handling is uniform across the file. -/
def lbrace : Char := Char.ofNat 123

/-- Closing curly brace character. -/
def rbrace : Char := Char.ofNat 125

/-- Single-quote character (code point 39). -/
def squote : Char := Char.ofNat 39

/-- Model of Rust char::is_whitespace on the ASCII range, the range used by
patterns in the source. -/
def isWs (c : Char) : Bool := c.isWhitespace

/-- Characters treated as meta characters by Rust regex::escape
(regex-syntax is_meta_character). -/
def isRegexMeta (c : Char) : Bool :=
  c = '\\' || c = '.' || c = '+' || c = '*' || c = '?' || c = '(' || c = ')' ||
  c = '|' || c = '[' || c = ']' || c = lbrace || c = rbrace || c = '^' ||
  c = '$' || c = '#' || c = '&' || c = '-' || c = '~'

/-- Model of Rust regex::escape on a character list: a backslash is put
before every meta character. -/
def rustRegexEscapeList : List Char → List Char
  | [] => []
  | c :: rest =>
    if isRegexMeta c then '\\' :: c :: rustRegexEscapeList rest
    else c :: rustRegexEscapeList rest

/-- Model of Rust regex::escape on strings. -/
def rustRegexEscape (s : String) : String :=
  String.mk (rustRegexEscapeList s.data)

/-- Translation of one strftime directive character, mirroring the match in
strftime_to_regex (src/types.rs lines 13-33).  The source has no arm for
the character f, so f falls to the unknown-directive case. -/
def strftimeDirective (c : Char) : String :=
  if c = 'Y' then "\\d\x7b4\x7d"
  else if c = 'y' then "\\d\x7b2\x7d"
  else if c = 'm' then "\\d\x7b1,2\x7d"
  else if c = 'd' then "\\d\x7b1,2\x7d"
  else if c = 'H' then "\\d\x7b1,2\x7d"
  else if c = 'M' then "\\d\x7b1,2\x7d"
  else if c = 'S' then "\\d\x7b1,2\x7d"
  else if c = 'b' then "[A-Za-z]\x7b3\x7d"
  else if c = 'h' then "[A-Za-z]\x7b3\x7d"
  else if c = 'B' then "[A-Za-z]+"
  else if c = 'a' then "[A-Za-z]\x7b3\x7d"
  else if c = 'A' then "[A-Za-z]+"
  else if c = 'w' then "\\d"
  else if c = 'j' then "\\d\x7b1,3\x7d"
  else if c = 'U' then "\\d\x7b2\x7d"
  else if c = 'W' then "\\d\x7b2\x7d"
  else if c = 'c' then ".+"
  else if c = 'x' then ".+"
  else if c = 'X' then ".+"
  else if c = '%' then "%"
  else ".+?"

/-- Embedding of strftime_to_regex (src/types.rs lines 6-43): scan the
template; a percent sign consumes the following character and emits its
directive translation (nothing is emitted for a trailing lone percent sign);
any other character is emitted regex-escaped. -/
def strftime_to_regex : List Char → String
  | [] => ""
  | c :: rest =>
    if c = '%' then
      match rest with
      | [] => ""
      | d :: rest2 => strftimeDirective d ++ strftime_to_regex rest2
    else rustRegexEscape (String.mk [c]) ++ strftime_to_regex rest

/-- Embedding of the FieldType enum (src/types.rs lines 45-70). -/
inductive FieldType where
  | String
  | Integer
  | Float
  | Boolean
  | Letters
  | Word
  | NonLetters
  | NonWhitespace
  | NonDigits
  | NumberWithThousands
  | Scientific
  | GeneralNumber
  | Percentage
  | DateTimeISO
  | DateTimeRFC2822
  | DateTimeGlobal
  | DateTimeUS
  | DateTimeCtime
  | DateTimeHTTP
  | DateTimeTime
  | DateTimeSystem
  | DateTimeStrftime
  | Custom (name : String)
  deriving DecidableEq, Repr

/-- Constructor index of a FieldType, the model of
std::mem::discriminant used by field_types_match (src/parser.rs 562-566):
two Custom types have the same discriminant whatever their payloads. -/
def tagOf : FieldType → Nat
  | .String => 0
  | .Integer => 1
  | .Float => 2
  | .Boolean => 3
  | .Letters => 4
  | .Word => 5
  | .NonLetters => 6
  | .NonWhitespace => 7
  | .NonDigits => 8
  | .NumberWithThousands => 9
  | .Scientific => 10
  | .GeneralNumber => 11
  | .Percentage => 12
  | .DateTimeISO => 13
  | .DateTimeRFC2822 => 14
  | .DateTimeGlobal => 15
  | .DateTimeUS => 16
  | .DateTimeCtime => 17
  | .DateTimeHTTP => 18
  | .DateTimeTime => 19
  | .DateTimeSystem => 20
  | .DateTimeStrftime => 21
  | .Custom _ => 22

/-- Embedding of field_types_match (src/parser.rs 562-566): discriminant
equality. -/
def field_types_match (t1 t2 : FieldType) : Bool :=
  tagOf t1 = tagOf t2

/-- Embedding of the FieldSpec struct with its Default instance
(src/types.rs lines 72-101). -/
structure FieldSpec where
  name : Option String := none
  field_type : FieldType := .String
  width : Option Nat := none
  precision : Option Nat := none
  alignment : Option Char := none
  sign : Option Char := none
  fill : Option Char := none
  zero_pad : Bool := false
  strftime_format : Option String := none
  original_type_char : Option Char := none
  deriving DecidableEq, Repr

/-- Association-list lookup with string keys, the model of HashMap::get for
the maps the source builds (each key is inserted at most once). -/
def lookupAssoc {β : Type} : List (String × β) → String → Option β
  | [], _ => none
  | (k, v) :: rest, n => if k = n then some v else lookupAssoc rest n

/-- Sign sub-pattern computation shared by the numeric arms of
to_regex_pattern; each Rust arm writes the same match inline with its own
default string, passed here as dflt (src/types.rs 145-150, 203-208,
235-240, 250-255, 260-265, 270-275). -/
def signPattern (sign : Option Char) (dflt : String) : String :=
  match sign with
  | some '+' => "\\+?"
  | some '-' => "-?"
  | some ' ' => "[- ]?"
  | some _ => dflt
  | none => dflt

/-- Embedding of FieldSpec::to_regex_pattern (src/types.rs lines 108-329).
custom_patterns maps custom type names to converter pattern strings;
next_field_is_greedy is the compiler lookahead result. -/
def to_regex_pattern (spec : FieldSpec) (custom_patterns : List (String × String))
    (next_field_is_greedy : Option Bool) : String :=
  match spec.field_type with
  | .String =>
    match spec.precision with
    | some prec => ".\x7b" ++ toString prec ++ "\x7d"
    | none =>
      match spec.width with
      | some width =>
        match next_field_is_greedy with
        | some false => ".\x7b" ++ toString width ++ "\x7d"
        | _ => ".\x7b" ++ toString width ++ ",\x7d"
      | none =>
        if spec.alignment.isSome then
          match spec.alignment with
          | some '<' => "([^\\\x7b\\\x7d\\s]+(?:\\s+[^\\\x7b\\\x7d\\s]+)*?)(?:\\s*)"
          | some '>' => " *(.+?)"
          | some '^' => "(?:\\s*)([^\\\x7b\\\x7d\\s]+(?:\\s+[^\\\x7b\\\x7d\\s]+)*?)(?:\\s*)"
          | _ => "[^\\\x7b\\\x7d]+?"
        else ".+?"
  | .Integer =>
    let sign := signPattern spec.sign "[+-]?"
    let fillPre :=
      match spec.fill, spec.alignment with
      | some fc, some '=' => rustRegexEscape (String.mk [fc]) ++ "*"
      | _, _ => ""
    let fillSuf : String := ""
    if spec.zero_pad then
      match spec.width with
      | some width => sign ++ fillPre ++ fillSuf ++ "[0-9]\x7b" ++ toString width ++ "\x7d"
      | none => sign ++ fillPre ++ fillSuf ++ "[0-9]+"
    else
      match spec.original_type_char with
      | some 'x' => sign ++ fillPre ++ fillSuf ++ "(?:0[xX][0-9a-fA-F]+|[0-9a-fA-F]+)"
      | some 'X' => sign ++ fillPre ++ fillSuf ++ "(?:0[xX][0-9a-fA-F]+|[0-9a-fA-F]+)"
      | some 'o' => sign ++ fillPre ++ fillSuf ++ "(?:0[oO][0-7]+|[0-7]+)"
      | some 'b' => sign ++ fillPre ++ fillSuf ++ "(?:0[bB][01]+|[01]+)"
      | _ => sign ++ fillPre ++ fillSuf ++ "(?:0[xX][0-9a-fA-F]+|0[oO][0-7]+|0[bB][01]+|[0-9]+)"
  | .Float =>
    let sign := signPattern spec.sign "[+-]?"
    match spec.precision with
    | some prec =>
      if spec.width.isSome then
        "\\s*" ++ sign ++ "(?:\\d*\\.\\d\x7b" ++ toString prec ++ "\x7d|\\.\\d\x7b" ++
          toString prec ++ "\x7d)(?:[eE][+-]?\\d+)?"
      else
        sign ++ "(?:\\d*\\.\\d\x7b" ++ toString prec ++ "\x7d|\\.\\d\x7b" ++
          toString prec ++ "\x7d)(?:[eE][+-]?\\d+)?"
    | none => sign ++ "(?:\\d+\\.\\d+|\\.\\d+|\\d+\\.)(?:[eE][+-]?\\d+)?"
  | .Letters => "[a-zA-Z]+"
  | .Word => "\\w+"
  | .NonLetters => "[^a-zA-Z]+"
  | .NonWhitespace => "\\S+"
  | .NonDigits => "[^0-9]+"
  | .NumberWithThousands =>
    signPattern spec.sign "[+-]?" ++ "(?:\\d\x7b1,3\x7d(?:[.,]\\d\x7b3\x7d)*|\\d+)"
  | .Scientific =>
    signPattern spec.sign "-?" ++ "\\d*\\.\\d+[eE][-+]?\\d+|nan|NAN|[-+]?inf|[-+]?INF"
  | .GeneralNumber =>
    signPattern spec.sign "-?" ++
      "(?:\\d+\\.\\d+|\\.\\d+|\\d+\\.|\\d+)(?:[eE][+-]?\\d+)?|nan|NAN|[-+]?inf|[-+]?INF"
  | .Percentage =>
    signPattern spec.sign "-?" ++ "(?:\\d+\\.\\d+|\\.\\d+|\\d+)%"
  | .DateTimeISO =>
    "\\d\x7b4\x7d-\\d\x7b2\x7d-\\d\x7b2\x7d(?:[T ]\\d\x7b2\x7d:\\d\x7b2\x7d(?::\\d\x7b2\x7d(?:\\.\\d+)?)?)?(?:\\s*[Zz]|\\s*[+-]\\d\x7b2\x7d:?\\d\x7b2\x7d|\\s*[+-]\\d\x7b4\x7d)?"
  | .DateTimeRFC2822 =>
    "(?:(?:Mon|Tue|Wed|Thu|Fri|Sat|Sun),\\s+)?\\d\x7b1,2\x7d\\s+(?:Jan|Feb|Mar|Apr|May|Jun|Jul|Aug|Sep|Oct|Nov|Dec)\\s+\\d\x7b4\x7d\\s+\\d\x7b2\x7d:\\d\x7b2\x7d:\\d\x7b2\x7d\\s+[+-]\\d\x7b2\x7d:?\\d\x7b2,4\x7d"
  | .DateTimeGlobal =>
    "\\d\x7b1,2\x7d[-/](?:\\d\x7b1,2\x7d|Jan|Feb|Mar|Apr|May|Jun|Jul|Aug|Sep|Oct|Nov|Dec|January|February|March|April|June|July|August|September|October|November|December)[-/]\\d\x7b4\x7d(?:\\s+\\d\x7b1,2\x7d:\\d\x7b2\x7d(?::\\d\x7b2\x7d)?(?:\\s+[AP]M)?(?:\\s+[+-]\\d\x7b1,2\x7d:?\\d\x7b2,4\x7d)?)?"
  | .DateTimeUS =>
    "(?:\\d\x7b1,2\x7d|Jan|Feb|Mar|Apr|May|Jun|Jul|Aug|Sep|Oct|Nov|Dec|January|February|March|April|June|July|August|September|October|November|December)[-/]\\d\x7b1,2\x7d[-/]\\d\x7b4\x7d(?:\\s+\\d\x7b1,2\x7d:\\d\x7b2\x7d(?::\\d\x7b2\x7d)?(?:\\s+[AP]M)?(?:\\s+[+-]\\d\x7b2\x7d:?\\d\x7b2,4\x7d)?)?"
  | .DateTimeCtime =>
    "(?:Mon|Tue|Wed|Thu|Fri|Sat|Sun)\\s+(?:Jan|Feb|Mar|Apr|May|Jun|Jul|Aug|Sep|Oct|Nov|Dec)\\s+\\d\x7b1,2\x7d\\s+\\d\x7b2\x7d:\\d\x7b2\x7d:\\d\x7b2\x7d\\s+\\d\x7b4\x7d"
  | .DateTimeHTTP =>
    "\\d\x7b2\x7d/[A-Za-z]\x7b3\x7d/\\d\x7b4\x7d:\\d\x7b2\x7d:\\d\x7b2\x7d:\\d\x7b2\x7d\\s+[+-]\\d\x7b2\x7d:?\\d\x7b2,4\x7d"
  | .DateTimeTime =>
    "\\d\x7b1,2\x7d:\\d\x7b2\x7d(?::\\d\x7b2\x7d)?(?:\\s+[AP]M)?(?:\\s+[+-]\\d\x7b1,2\x7d:?\\d\x7b2,4\x7d)?"
  | .DateTimeSystem =>
    "[A-Za-z]\x7b3\x7d\\s+\\d\x7b1,2\x7d\\s+\\d\x7b2\x7d:\\d\x7b2\x7d:\\d\x7b2\x7d"
  | .DateTimeStrftime =>
    match spec.strftime_format with
    | some fmt => strftime_to_regex fmt.data
    | none => ".+?"
  | .Boolean =>
    "true|false|True|False|TRUE|FALSE|1|0|yes|no|Yes|No|YES|NO|on|off|On|Off|ON|OFF"
  | .Custom nm =>
    match lookupAssoc custom_patterns nm with
    | some p => p
    | none => "\\S+"

/-- Skip characters up to and including the first closing angle bracket,
the inner name-skipping loop of count_capturing_groups
(src/parser.rs 543-550). -/
def skipToGt : List Char → List Char
  | [] => []
  | c :: rest => if c = '>' then rest else skipToGt rest

/-- Fuel-driven body of count_capturing_groups (src/parser.rs 519-560): an
escaped character is skipped, a parenthesis followed by a question mark is a
non-capturing construct (with named groups skipping their name), any other
parenthesis is a capturing group.  Every step consumes at least one
character, so fuel equal to the length suffices. -/
def countGroupsAux : Nat → List Char → Nat
  | 0, _ => 0
  | fuel+1, cs =>
    match cs with
    | [] => 0
    | '\\' :: rest =>
      match rest with
      | [] => 0
      | _ :: rest2 => countGroupsAux fuel rest2
    | '(' :: rest =>
      match rest with
      | '?' :: rest2 =>
        match rest2 with
        | 'P' :: '<' :: rest3 => countGroupsAux fuel (skipToGt rest3)
        | _ => countGroupsAux fuel rest2
      | _ => 1 + countGroupsAux fuel rest
    | _ :: rest => countGroupsAux fuel rest

/-- Embedding of FormatParser::count_capturing_groups (src/parser.rs
519-560). -/
def count_capturing_groups (cs : List Char) : Nat :=
  countGroupsAux (cs.length + 1) cs

/-- Fuel-driven body of the compiler lookahead (src/parser.rs 366-414):
skip whitespace up to the closing brace of the current field, skip
whitespace, then inspect the next character; an opening brace directly
followed by a closing brace is the bare non-greedy field (some false), an
escaped double brace restarts the scan, any other following character makes
the next field greedy (some true); anything else, including end of pattern
or a non-whitespace literal character, yields none.  Each recursive step
consumes at least three characters. -/
def nextFieldGreedyAux : Nat → List Char → Option Bool
  | 0, _ => none
  | fuel+1, cs =>
    match cs.dropWhile isWs with
    | [] => none
    | c :: rest =>
      if c = rbrace then
        match rest.dropWhile isWs with
        | [] => none
        | d :: rest2 =>
          if d = lbrace then
            match rest2 with
            | [] => some true
            | e :: rest3 =>
              if e = lbrace then nextFieldGreedyAux fuel rest3
              else if e = rbrace then some false
              else some true
          else none
      else none

/-- Embedding of the next-field lookahead of parse_pattern (src/parser.rs
366-414), applied to the characters remaining after the current field body
(positioned at the closing brace of the current field). -/
def next_field_is_greedy (cs : List Char) : Option Bool :=
  nextFieldGreedyAux (cs.length + 1) cs

/-- Alignment characters accepted by parse_format_spec. -/
def isAlignChar (c : Char) : Bool :=
  c = '<' || c = '>' || c = '^' || c = '='

/-- Numeric value of a decimal digit string, the model of usize parsing of
the width and precision digit runs (these cannot overflow on realistic
pattern widths; the source discards a failed parse, which does not occur
for the digit runs it feeds in). -/
def digitsToNat (cs : List Char) : Nat :=
  cs.foldl (fun n c => n * 10 + (c.toNat - 48)) 0

/-- Single-character type code resolution of parse_format_spec
(src/parser.rs 882-897). -/
def singleCharType (c : Char) : FieldType :=
  if c = 's' then .String
  else if c = 'd' || c = 'i' then .Integer
  else if c = 'b' || c = 'o' || c = 'x' || c = 'X' then .Integer
  else if c = 'n' then .NumberWithThousands
  else if c = 'f' || c = 'F' then .Float
  else if c = 'e' || c = 'E' then .Scientific
  else if c = 'g' || c = 'G' then .GeneralNumber
  else if c = 'l' then .Letters
  else if c = 'w' then .Word
  else if c = 'W' then .NonLetters
  else if c = 'S' then .NonWhitespace
  else if c = 'D' then .NonDigits
  else .Custom (String.mk [c])

/-- Type-string resolution of parse_format_spec (src/parser.rs 839-899): a
lone percent sign is Percentage, a string starting with a percent sign is a
strftime template, otherwise the alphabetic characters form the type name
(empty means String, the two-letter t-codes are date dialects, longer names
are custom types, single characters go through the built-in table). -/
def resolveType (spec : FieldSpec) (typeStr : List Char) : FieldSpec :=
  if typeStr = ['%'] then { spec with field_type := .Percentage }
  else if typeStr.head? = some '%' then
    { spec with field_type := .DateTimeStrftime, strftime_format := some (String.mk typeStr) }
  else
    let typeName := typeStr.filter Char.isAlpha
    if typeName.isEmpty then { spec with field_type := .String }
    else if typeName = ['t', 'i'] then { spec with field_type := .DateTimeISO }
    else if typeName = ['t', 'e'] then { spec with field_type := .DateTimeRFC2822 }
    else if typeName = ['t', 'g'] then { spec with field_type := .DateTimeGlobal }
    else if typeName = ['t', 'a'] then { spec with field_type := .DateTimeUS }
    else if typeName = ['t', 'c'] then { spec with field_type := .DateTimeCtime }
    else if typeName = ['t', 'h'] then { spec with field_type := .DateTimeHTTP }
    else if typeName = ['t', 't'] then { spec with field_type := .DateTimeTime }
    else if typeName = ['t', 's'] then { spec with field_type := .DateTimeSystem }
    else if 1 < typeName.length then
      { spec with field_type := .Custom (String.mk typeName) }
    else
      match typeName with
      | [c] => { spec with field_type := singleCharType c }
      | _ => spec

/-- Embedding of FormatParser::parse_format_spec (src/parser.rs 757-900):
sequentially parse fill and alignment, sign, the alternate-form hash, the
zero-pad flag, the width digits, an ignored comma, the precision digits,
and finally the type string. -/
def parse_format_spec (fs : List Char) : FieldSpec :=
  let stage1 : FieldSpec × List Char :=
    match fs with
    | [] => ({}, fs)
    | c :: rest =>
      if isAlignChar c then ({ alignment := some c }, rest)
      else
        match rest with
        | c2 :: rest2 =>
          if isAlignChar c2 then ({ fill := some c, alignment := some c2 }, rest2)
          else ({}, fs)
        | [] => ({}, fs)
  let spec1 := stage1.1
  let rest1 := stage1.2
  let stage2 : FieldSpec × List Char :=
    match rest1 with
    | c :: rest =>
      if c = '+' || c = '-' || c = ' ' then ({ spec1 with sign := some c }, rest)
      else (spec1, rest1)
    | [] => (spec1, rest1)
  let spec2 := stage2.1
  let rest2 := stage2.2
  let rest3 :=
    match rest2 with
    | '#' :: rest => rest
    | _ => rest2
  let stage4 : FieldSpec × List Char :=
    match rest3 with
    | '0' :: rest => ({ spec2 with zero_pad := true }, rest)
    | _ => (spec2, rest3)
  let spec4 := stage4.1
  let rest4 := stage4.2
  let widthDigits := rest4.takeWhile Char.isDigit
  let rest5 := rest4.dropWhile Char.isDigit
  let spec5 :=
    if widthDigits.isEmpty then spec4
    else { spec4 with width := some (digitsToNat widthDigits) }
  let rest6 :=
    match rest5 with
    | ',' :: rest => rest
    | _ => rest5
  let stage7 : FieldSpec × List Char :=
    match rest6 with
    | '.' :: rest =>
      let pd := rest.takeWhile Char.isDigit
      let r := rest.dropWhile Char.isDigit
      (if pd.isEmpty then spec5 else { spec5 with precision := some (digitsToNat pd) }, r)
    | _ => (spec5, rest6)
  resolveType stage7.1 stage7.2

/-- Embedding of the field-name scanning loop of FormatParser::parse_field
(src/parser.rs 679-732).  Returns the collected name characters, the
remaining characters (the loop peeks without consuming at its break
points), and the in_name flag; a quote inside brackets is the unsupported
quoted-key error. -/
def parseFieldNameLoop : List Char → List Char → Bool → Bool →
    Except String (List Char × List Char × Bool)
  | [], acc, _, inName => .ok (acc, [], inName)
  | c :: rest, acc, inBrackets, inName =>
    if c = ':' then .ok (acc, rest, false)
    else if c = '!' then
      match rest with
      | [] => .ok (acc, [], false)
      | _ :: rest2 => parseFieldNameLoop rest2 acc inBrackets false
    else if c = rbrace then .ok (acc, c :: rest, inName)
    else if c = '[' then parseFieldNameLoop rest (acc ++ ['[']) true inName
    else if c = ']' then parseFieldNameLoop rest (acc ++ [']']) false inName
    else if c = squote || c = '"' then
      if inBrackets then .error "Quoted keys in field names are not supported"
      else .ok (acc, c :: rest, false)
    else if c.isAlphanum || c = '_' || c = '-' || c = '.' then
      parseFieldNameLoop rest (acc ++ [c]) inBrackets inName
    else .ok (acc, c :: rest, false)

/-- Embedding of FormatParser::parse_field (src/parser.rs 673-755): scan
the name, then, when the name scan ended before a colon or an invalid name
character, read the format spec up to the closing brace; the field name is
None when no name characters were collected. -/
def parse_field (cs : List Char) : Except String (FieldSpec × Option String × List Char) :=
  match parseFieldNameLoop cs [] false true with
  | .error e => .error e
  | .ok (nameChars, rest, inName) =>
    let fsChars := if inName then [] else rest.takeWhile (fun c => c ≠ rbrace)
    let rest2 := if inName then rest else rest.dropWhile (fun c => c ≠ rbrace)
    let spec := parse_format_spec fsChars
    let nm := if nameChars.isEmpty then none else some (String.mk nameChars)
    .ok (spec, nm, rest2)

/-- Fuel-driven collision loop of normalize_field_name (src/parser.rs
507-516): append underscores until the candidate is free.  At most
existing.length candidates can collide, so that much fuel suffices. -/
def normalizeLoop : Nat → String → Nat → List (Option String) → String
  | 0, base, k, _ => base ++ String.mk (List.replicate k '_')
  | fuel+1, base, k, existing =>
    let cand := base ++ String.mk (List.replicate k '_')
    if existing.any (fun n => n == some cand) then normalizeLoop fuel base (k+1) existing
    else cand

/-- Embedding of FormatParser::normalize_field_name (src/parser.rs
501-517): hyphens and dots become underscores, then underscores are
appended until the name avoids every existing normalized name. -/
def normalize_field_name (name : String) (existing : List (Option String)) : String :=
  let base := String.mk (name.data.map (fun c => if c = '-' || c = '.' then '_' else c))
  normalizeLoop (existing.length + 1) base 0 existing

/-- Repeated-name validation step of parse_pattern (src/parser.rs 418-430
with field_types_match from 562-566): a named field whose name was seen
with a different type discriminant is a compile error; a new name records
its type.  The source message quotes the offending name. -/
def checkFieldName (acc : List (String × FieldType)) (name : Option String)
    (t : FieldType) : Except String (List (String × FieldType)) :=
  match name with
  | some n =>
    match lookupAssoc acc n with
    | some t0 =>
      if field_types_match t0 t then .ok acc
      else .error ("Repeated name " ++ n ++ " with mismatched types")
    | none => .ok ((n, t) :: acc)
  | none => .ok acc

/-- Fold of checkFieldName over the fields of a pattern in order, the
repeated-name validation that parse_pattern performs while scanning
(src/parser.rs 418-430). -/
def validateNamesAux (acc : List (String × FieldType)) :
    List (Option String × FieldType) → Except String (List (String × FieldType))
  | [] => .ok acc
  | (n, t) :: rest =>
    match checkFieldName acc n t with
    | .error e => .error e
    | .ok acc2 => validateNamesAux acc2 rest

/-- Repeated-name validation of a whole field list, starting from the empty
table as parse_pattern does. -/
def validate_repeated_names (l : List (Option String × FieldType)) :
    Except String (List (String × FieldType)) :=
  validateNamesAux [] l

/-- Result of compiling a pattern: the anchored regex string, the emitted
parts, and the side tables of FormatParser (src/parser.rs 8-20,
496-498). -/
structure CompileOutput where
  regex : String
  parts : List String
  field_specs : List FieldSpec
  field_names : List (Option String)
  normalized_names : List (Option String)
  name_mapping : List (String × String)
  deriving DecidableEq, Repr

/-- Removal of trailing whitespace, the model of Rust str::trim_end on the
ASCII range. -/
def trimEndWs (cs : List Char) : List Char :=
  (cs.reverse.dropWhile isWs).reverse

/-- Literal-run escaping of parse_pattern (src/parser.rs 349-361, 483-494):
a literal ending in whitespace is escaped without the trailing whitespace
and a flexible whitespace matcher is appended; otherwise the literal is
escaped as is. -/
def escapeLiteral (lit : List Char) : String :=
  if trimEndWs lit ≠ lit then rustRegexEscape (String.mk (trimEndWs lit)) ++ "\\s*"
  else rustRegexEscape (String.mk lit)

/-- Accumulator state of the parse_pattern scanning loop. -/
structure CompileSt where
  parts : List String := []
  specs : List FieldSpec := []
  names : List (Option String) := []
  normNames : List (Option String) := []
  mapping : List (String × String) := []
  nameTypes : List (String × FieldType) := []

/-- Flush a pending literal run into the regex parts
(src/parser.rs 349-361). -/
def flushLiteral (lit : List Char) (parts : List String) : List String :=
  if lit.isEmpty then parts else parts ++ [escapeLiteral lit]

/-- Fuel-driven body of FormatParser::parse_pattern (src/parser.rs
328-499): scan the pattern, treating double braces as literal braces,
accumulating literal runs, and on an opening brace parsing a field,
computing the next-field lookahead, emitting the wrapped fragment,
validating repeated names, and normalizing named groups (numeric names
become positional groups).  Each step consumes at least one character, so
fuel equal to the pattern length plus one suffices. -/
def compileAux (custom_patterns : List (String × String)) :
    Nat → List Char → List Char → CompileSt → Except String CompileSt
  | 0, _, _, _ => .error "out of fuel"
  | fuel+1, cs, literal, st =>
    match cs with
    | [] => .ok { st with parts := flushLiteral literal st.parts }
    | c :: rest =>
      if c = lbrace then
        match rest with
        | r :: rest2 =>
          if r = lbrace then compileAux custom_patterns fuel rest2 (literal ++ [lbrace]) st
          else
            let parts1 := flushLiteral literal st.parts
            match parse_field rest with
            | .error e => .error e
            | .ok (spec, nm, rest3) =>
              let nfg := next_field_is_greedy rest3
              let frag := to_regex_pattern spec custom_patterns nfg
              match checkFieldName st.nameTypes nm spec.field_type with
              | .error e => .error e
              | .ok nameTypes2 =>
                let st2 :=
                  match nm with
                  | some n =>
                    if n.data.all Char.isDigit then
                      { st with
                        parts := parts1 ++ [("(" ++ frag ++ ")")]
                        specs := st.specs ++ [spec]
                        names := st.names ++ [none]
                        normNames := st.normNames ++ [none]
                        nameTypes := nameTypes2 }
                    else
                      let normalized := normalize_field_name n st.normNames
                      { st with
                        parts := parts1 ++ [("(?P<" ++ normalized ++ ">" ++ frag ++ ")")]
                        specs := st.specs ++ [spec]
                        names := st.names ++ [some n]
                        normNames := st.normNames ++ [some normalized]
                        mapping := st.mapping ++ [(normalized, n)]
                        nameTypes := nameTypes2 }
                  | none =>
                    { st with
                      parts := parts1 ++ [("(" ++ frag ++ ")")]
                      specs := st.specs ++ [spec]
                      names := st.names ++ [none]
                      normNames := st.normNames ++ [none]
                      nameTypes := nameTypes2 }
                match rest3 with
                | r3 :: rest4 =>
                  if r3 = rbrace then compileAux custom_patterns fuel rest4 [] st2
                  else .error "Expected closing brace after field specification"
                | [] => .error "Expected closing brace after field specification"
        | [] =>
          match parse_field [] with
          | .error e => .error e
          | .ok _ => .error "Expected closing brace after field specification"
      else if c = rbrace then
        match rest with
        | r :: rest2 =>
          if r = rbrace then compileAux custom_patterns fuel rest2 (literal ++ [rbrace]) st
          else compileAux custom_patterns fuel rest (literal ++ [rbrace]) st
        | [] => compileAux custom_patterns fuel [] (literal ++ [rbrace]) st
      else compileAux custom_patterns fuel rest (literal ++ [c]) st

/-- Embedding of FormatParser::parse_pattern (src/parser.rs 328-499): run
the scanning loop and assemble the anchored regex and the side tables. -/
def parse_pattern (pattern : String) (custom_patterns : List (String × String)) :
    Except String CompileOutput :=
  match compileAux custom_patterns (pattern.length + 1) pattern.data [] {} with
  | .error e => .error e
  | .ok st =>
    .ok { regex := "^" ++ String.join st.parts ++ "$"
          parts := st.parts
          field_specs := st.specs
          field_names := st.names
          normalized_names := st.normNames
          name_mapping := st.mapping }

/-- Anchored regex string of a compiled pattern. -/
def compileRegex (p : String) (cps : List (String × String)) : Except String String :=
  (parse_pattern p cps).map (fun o => o.regex)

/-- Ordered field specs of a compiled pattern. -/
def compileSpecs (p : String) (cps : List (String × String)) :
    Except String (List FieldSpec) :=
  (parse_pattern p cps).map (fun o => o.field_specs)

/-- Value of the regex_group_count attribute of a converter as the
extractor sees it: absent, present but not an integer (None), or an
integer (src/parser.rs 165-200). -/
inductive RegexGroupCount where
  | missing
  | noneValue
  | intValue (g : Int)

/-- Kind of a raised Python error. -/
inductive PyErrKind where
  | valueError
  | indexError
  deriving DecidableEq, Repr

/-- Embedding of the custom-converter validation in match_with_regex
(src/parser.rs 156-204), for a converter whose pattern attribute is the
given string: a negative count is a ValueError; a zero count with a pattern
that has capturing groups is a ValueError; a count larger than the counted
groups is an IndexError; a missing or non-integer count with a pattern that
has capturing groups is a ValueError. -/
def validate_regex_group_count (patternStr : String) (rgc : RegexGroupCount) :
    Except PyErrKind Unit :=
  let actual := count_capturing_groups patternStr.data
  match rgc with
  | .intValue g =>
    if g < 0 then .error .valueError
    else if g = 0 ∧ 0 < actual then .error .valueError
    else if (actual : Int) < g then .error .indexError
    else .ok ()
  | .noneValue => if 0 < actual then .error .valueError else .ok ()
  | .missing => if 0 < actual then .error .valueError else .ok ()

/-- Embedding of the character loop of FormatParser::parse_field_path
(src/parser.rs 569-606), with the current segment, the in-bracket flag, the
bracket content and the path accumulated so far. -/
def parseFieldPathLoop : List Char → List Char → Bool → List Char → List String → List String
  | [], current, _, _, path =>
    if current.isEmpty then path else path ++ [String.mk current]
  | c :: rest, current, inBrackets, bracketContent, path =>
    if c = '[' then
      let path2 := if current.isEmpty then path else path ++ [String.mk current]
      parseFieldPathLoop rest [] true bracketContent path2
    else if c = ']' then
      if inBrackets then
        parseFieldPathLoop rest current false [] (path ++ [String.mk bracketContent])
      else parseFieldPathLoop rest current inBrackets bracketContent path
    else
      if inBrackets then parseFieldPathLoop rest current inBrackets (bracketContent ++ [c]) path
      else parseFieldPathLoop rest (current ++ [c]) inBrackets bracketContent path

/-- Embedding of FormatParser::parse_field_path (src/parser.rs
569-606). -/
def parse_field_path (name : String) : List String :=
  parseFieldPathLoop name.data [] false [] []

/-- Model of a Python value held in a parse result: a primitive of the
carrier type, or a nested dictionary. -/
inductive PyVal (α : Type) where
  | prim (a : α)
  | dict (entries : List (String × PyVal α))

/-- Association-list insertion with replacement, the model of HashMap and
PyDict insertion (keys stay unique). -/
def assocSet {β : Type} : List (String × β) → String → β → List (String × β)
  | [], k, v => [(k, v)]
  | (k0, v0) :: rest, k, v =>
    if k0 = k then (k, v) :: rest else (k0, v0) :: assocSet rest k v

/-- Intermediate walk of FormatParser::insert_nested_dict (src/parser.rs
646-670): descend the path, reusing a nested dictionary when present and
creating a fresh one otherwise, and set the leaf value. -/
def setPathEntries {α : Type} : List (String × PyVal α) → List String → PyVal α →
    List (String × PyVal α)
  | es, [], _ => es
  | es, [k], v => assocSet es k v
  | es, k :: rest, v =>
    let nested :=
      match lookupAssoc es k with
      | some (.dict fs) => fs
      | _ => []
    assocSet es k (.dict (setPathEntries nested rest v))

/-- Embedding of FormatParser::insert_nested_dict (src/parser.rs 608-671):
an empty path does nothing, a single key is a plain insertion, a longer
path reuses or creates the top-level dictionary and walks the rest. -/
def insert_nested_dict {α : Type} (named : List (String × PyVal α)) (path : List String)
    (v : PyVal α) : List (String × PyVal α) :=
  match path with
  | [] => named
  | [k] => assocSet named k v
  | k :: rest =>
    let top :=
      match lookupAssoc named k with
      | some (.dict es) => es
      | _ => []
    assocSet named k (.dict (setPathEntries top rest v))

/-- Embedding of the value-recording walk of match_with_regex
(src/parser.rs 234-269) over the already-converted value of each field in
order: a bracketed name goes through the nested-dictionary path with no
equality check, a repeated flat name whose previous value differs under the
host equality eq rejects the whole match (returning none as the source
returns Ok(None)), an unnamed field is appended to the positional list. -/
def processFieldsAux {α : Type} (eq : PyVal α → PyVal α → Bool) :
    List (Option String × PyVal α) → List (PyVal α) → List (String × PyVal α) →
    Option (List (PyVal α) × List (String × PyVal α))
  | [], fixed, named => some (fixed, named)
  | (nm, v) :: rest, fixed, named =>
    match nm with
    | some n =>
      if n.data.contains '[' then
        processFieldsAux eq rest fixed (insert_nested_dict named (parse_field_path n) v)
      else
        match lookupAssoc named n with
        | some v0 =>
          if eq v0 v then processFieldsAux eq rest fixed (assocSet named n v)
          else none
        | none => processFieldsAux eq rest fixed (assocSet named n v)
    | none => processFieldsAux eq rest (fixed ++ [v]) named

/-- Extraction of positional and named values from converted captures,
starting from empty accumulators as match_with_regex does. -/
def extract_values {α : Type} (eq : PyVal α → PyVal α → Bool)
    (items : List (Option String × PyVal α)) :
    Option (List (PyVal α) × List (String × PyVal α)) :=
  processFieldsAux eq items [] []

/-- Per-field group-offset contribution of the extractor loop
(src/parser.rs 153-204 and 283-290): one for any field with an alignment,
plus, for a custom field whose converter is present and exposes a pattern
string, the number of capturing groups counted in that pattern.  The
converters list maps names to their optional pattern attribute. -/
def offsetContribution (spec : FieldSpec) (converters : List (String × Option String)) : Nat :=
  (if spec.alignment.isSome then 1 else 0) +
  (match spec.field_type with
   | .Custom nm =>
     match lookupAssoc converters nm with
     | some (some p) => count_capturing_groups p.data
     | _ => 0
   | _ => 0)

/-- Capture index the extractor uses for the positional field at position i
(src/parser.rs 208-221): i plus one plus the accumulated offset
contributions of the earlier fields. -/
def capIndexUsed (fields : List FieldSpec) (converters : List (String × Option String))
    (i : Nat) : Nat :=
  i + 1 + ((fields.take i).map (fun s => offsetContribution s converters)).sum

/-- Index of the primary capture group of field i in the emitted regex:
every earlier field contributes its wrapping group plus the capturing
groups inside its fragment; groups are numbered from one in order of their
opening parentheses (src/parser.rs 439-457 together with
to_regex_pattern). -/
def primaryGroupIndex (l : List (FieldSpec × Option Bool)) (cps : List (String × String))
    (i : Nat) : Nat :=
  1 + ((l.take i).map
        (fun p => 1 + count_capturing_groups (to_regex_pattern p.1 cps p.2).data)).sum

/-- AM or PM marker found in a time string. -/
inductive AmPm where
  | am
  | pm
  deriving DecidableEq, Repr

/-- Hour adjustment shared by the AM/PM branches of parse_time
(src/datetime_parse.rs 689-713), parse_global_datetime (285-330) and
parse_us_datetime (442-482): hour 12 with AM becomes 0, other AM hours are
unchanged, hour 12 with PM stays 12, other PM hours gain 12. -/
def adjust_hour_ampm (marker : AmPm) (hour : Nat) : Nat :=
  match marker with
  | .am => if hour = 12 then 0 else hour
  | .pm => if hour ≠ 12 then hour + 12 else hour

/-- Model of str::parse::<u32> on a character list: succeeds on a nonempty
all-digit run whose value fits in 32 bits. -/
def parseU32 (cs : List Char) : Option Nat :=
  if cs ≠ [] ∧ cs.all Char.isDigit ∧ digitsToNat cs < 4294967296 then
    some (digitsToNat cs)
  else none

/-- Microsecond computation of parse_iso_datetime (src/datetime_parse.rs
39-43 and the parallel captures at 63-67, 93-97, 123-127): left-align the
fractional digits padded with zeros to width six, cut to the first six
characters, and parse, defaulting to zero on a parse failure. -/
def microsecondOfFrac (s : List Char) : Nat :=
  let padded := if s.length < 6 then s ++ List.replicate (6 - s.length) '0' else s
  (parseU32 (padded.take (min 6 padded.length))).getD 0

/-- Microsecond computation of parse_strftime_fallback
(src/datetime_parse.rs 880-889): truncate beyond six digits first, then pad
with zeros to width six and parse, propagating a parse failure. -/
def microsecondFallback (s : List Char) : Option Nat :=
  let micros := if 6 < s.length then s.take 6 else s
  let padded :=
    if micros.length < 6 then micros ++ List.replicate (6 - micros.length) '0' else micros
  parseU32 padded

/-- Compile-time custom-pattern table of new_with_extra_types
(src/parser.rs 27-43): a converter contributes an entry exactly when its
pattern attribute is present as a string. -/
def buildCustomPatterns (converters : List (String × Option String)) :
    List (String × String) :=
  converters.filterMap (fun p => p.2.map (fun s => (p.1, s)))

/-- Concrete host equality on primitive values over Nat, used to
instantiate the abstract converter equality in witnesses. -/
def primNatEq : PyVal Nat → PyVal Nat → Bool
  | .prim a, .prim b => a == b
  | _, _ => false

theorem dropWhile_append_all {p : Char → Bool} (l1 l2 : List Char)
    (h : ∀ c ∈ l1, p c = true) : (l1 ++ l2).dropWhile p = l2.dropWhile p := by
  induction l1 with
  | nil => simp
  | cons a l ih =>
    simp only [List.cons_append, List.dropWhile_cons_of_pos (h a (by simp))]
    exact ih (fun c hc => h c (by simp [hc]))

theorem dropWhile_eq_cons_mem {p : Char → Bool} (l : List Char) (c : Char)
    (rest : List Char) (h : l.dropWhile p = c :: rest) : c ∈ l ∧ p c = false := by
  induction l with
  | nil => simp [List.dropWhile_nil] at h
  | cons a t ih =>
    by_cases pa : p a = true
    · rw [List.dropWhile_cons_of_pos pa] at h
      obtain ⟨hm, hf⟩ := ih h
      exact ⟨by simp [hm], hf⟩
    · rw [List.dropWhile_cons_of_neg pa] at h
      obtain ⟨rfl, -⟩ := List.cons.injEq .. ▸ h
      exact ⟨by simp, by simpa using pa⟩

theorem dropWhile_head_in {p : Char → Bool} (l1 l2 : List Char)
    (h : ∃ c ∈ l1, p c = false) :
    ∃ c rest, (l1 ++ l2).dropWhile p = c :: rest ∧ c ∈ l1 ∧ p c = false := by
  induction l1 with
  | nil => simp at h
  | cons a t ih =>
    by_cases pa : p a = true
    · have h2 : ∃ c ∈ t, p c = false := by
        obtain ⟨c, hc, hcf⟩ := h
        rcases List.mem_cons.mp hc with rfl | hct
        · exact absurd pa (by simp [hcf])
        · exact ⟨c, hct, hcf⟩
      obtain ⟨c, rest, heq, hm, hf⟩ := ih h2
      refine ⟨c, rest, ?_, by simp [hm], hf⟩
      rwa [List.cons_append, List.dropWhile_cons_of_pos pa]
    · refine ⟨a, t ++ l2, ?_, by simp, by simpa using pa⟩
      rw [List.cons_append, List.dropWhile_cons_of_neg pa]

theorem digitsToNat_append_zeros (xs : List Char) (k : Nat) :
    digitsToNat (xs ++ List.replicate k '0') = digitsToNat xs * 10 ^ k := by
  induction k with
  | zero => simp
  | succ k ih =>
    rw [List.replicate_succ', ← List.append_assoc]
    have step : digitsToNat ((xs ++ List.replicate k '0') ++ ['0']) =
        digitsToNat (xs ++ List.replicate k '0') * 10 := by
      simp [digitsToNat, List.foldl_append]
    rw [step, ih]
    ring

theorem char_digit_bounds (c : Char) (h : c.isDigit = true) :
    48 ≤ c.toNat ∧ c.toNat ≤ 57 := by
  simp [Char.isDigit] at h
  obtain ⟨h1, h2⟩ := h
  have g1 : (48 : UInt32).toNat ≤ c.val.toNat := h1
  have g2 : c.val.toNat ≤ (57 : UInt32).toNat := h2
  have e1 : (48 : UInt32).toNat = 48 := rfl
  have e2 : (57 : UInt32).toNat = 57 := rfl
  have e3 : c.toNat = c.val.toNat := rfl
  omega

theorem digitsToNat_lt (cs : List Char) (h : cs.all Char.isDigit = true) :
    digitsToNat cs < 10 ^ cs.length := by
  induction cs using List.reverseRecOn with
  | nil => simp [digitsToNat]
  | append_singleton xs c ih =>
    rw [List.all_append, Bool.and_eq_true] at h
    have hxs := h.1
    have hc : c.isDigit = true := by simpa using h.2
    have hstep : digitsToNat (xs ++ [c]) = digitsToNat xs * 10 + (c.toNat - 48) := by
      simp [digitsToNat, List.foldl_append]
    have hd := char_digit_bounds c hc
    have hb := ih hxs
    rw [hstep]
    simp only [List.length_append, List.length_singleton]
    have hpow : 10 ^ (xs.length + 1) = 10 ^ xs.length * 10 := by ring
    omega

theorem all_take {p : Char → Bool} (l : List Char) (n : Nat)
    (h : l.all p = true) : (l.take n).all p = true := by
  simp only [List.all_eq_true] at h ⊢
  exact fun c hc => h c (List.mem_of_mem_take hc)

/-- C8 (confirmed): in every date/time sub-parser that accepts AM/PM
markers (parse_time, parse_global_datetime, parse_us_datetime), hour 12
with AM yields 0, any other AM hour is unchanged, hour 12 with PM yields
12, and any other PM hour has 12 added. -/
theorem c8_ampm_hours :
    adjust_hour_ampm .am 12 = 0 ∧
    (∀ h : Nat, h ≠ 12 → adjust_hour_ampm .am h = h) ∧
    adjust_hour_ampm .pm 12 = 12 ∧
    (∀ h : Nat, h ≠ 12 → adjust_hour_ampm .pm h = h + 12) := by
  refine ⟨rfl, ?_, rfl, ?_⟩ <;> intro h hh <;> simp [adjust_hour_ampm, hh]

/-- Witness for C8 at concrete hours. -/
theorem c8_ampm_hours_witness :
    adjust_hour_ampm .am 9 = 9 ∧ adjust_hour_ampm .pm 1 = 13 :=
  ⟨c8_ampm_hours.2.1 9 (by decide), c8_ampm_hours.2.2.2 1 (by decide)⟩

/-- C9 (confirmed): the microsecond component is the fractional digits
right-padded with zeros to six digits and truncated beyond six: .1 gives
100000, .000001 gives 1, .1234567 gives 123456; in general a run of at
most six digits is scaled by the missing powers of ten and a longer run is
cut to its first six digits, and the strftime fallback computes the same
value. -/
theorem parseU32_of_digits (l : List Char) (hne : l ≠ []) (hd : l.all Char.isDigit = true)
    (hb : digitsToNat l < 4294967296) : parseU32 l = some (digitsToNat l) := by
  unfold parseU32
  rw [if_pos ⟨hne, hd, hb⟩]

theorem c9_microseconds :
    microsecondOfFrac "1".data = 100000 ∧
    microsecondOfFrac "000001".data = 1 ∧
    microsecondOfFrac "1234567".data = 123456 ∧
    (∀ ds : List Char, ds ≠ [] → ds.all Char.isDigit = true →
      microsecondOfFrac ds =
        (if ds.length ≤ 6 then digitsToNat ds * 10 ^ (6 - ds.length)
         else digitsToNat (ds.take 6)) ∧
      microsecondFallback ds = some (microsecondOfFrac ds)) := by
  refine ⟨by decide, by decide, by decide, ?_⟩
  intro ds hne hdig
  have hlen0 : 0 < ds.length := List.length_pos.mpr hne
  by_cases h6 : ds.length ≤ 6
  · have hpadded : (if ds.length < 6 then ds ++ List.replicate (6 - ds.length) '0' else ds) =
        ds ++ List.replicate (6 - ds.length) '0' := by
      rcases Nat.lt_or_ge ds.length 6 with hlt | hge
      · simp [hlt]
      · have h66 : ds.length = 6 := by omega
        simp [h66]
    have hplen : (ds ++ List.replicate (6 - ds.length) '0').length = 6 := by
      rw [List.length_append, List.length_replicate]
      omega
    have hall : (ds ++ List.replicate (6 - ds.length) '0').all Char.isDigit = true := by
      rw [List.all_append, Bool.and_eq_true]
      refine ⟨hdig, ?_⟩
      simp only [List.all_eq_true]
      intro c hc
      rw [List.eq_of_mem_replicate hc]
      decide
    have htake : (ds ++ List.replicate (6 - ds.length) '0').take
        (min 6 (ds ++ List.replicate (6 - ds.length) '0').length) =
        ds ++ List.replicate (6 - ds.length) '0' := by
      rw [hplen, Nat.min_self]
      exact List.take_of_length_le (le_of_eq hplen)
    have hval : digitsToNat (ds ++ List.replicate (6 - ds.length) '0') =
        digitsToNat ds * 10 ^ (6 - ds.length) := digitsToNat_append_zeros ds _
    have hbound : digitsToNat (ds ++ List.replicate (6 - ds.length) '0') < 4294967296 := by
      have hlt := digitsToNat_lt _ hall
      rw [hplen] at hlt
      omega
    have hne2 : ds ++ List.replicate (6 - ds.length) '0' ≠ [] := by
      intro hcon
      have hl := congrArg List.length hcon
      rw [hplen] at hl
      simp at hl
    have hmain : microsecondOfFrac ds = digitsToNat ds * 10 ^ (6 - ds.length) := by
      simp only [microsecondOfFrac]
      rw [hpadded, htake, parseU32_of_digits _ hne2 hall hbound, hval]
      rfl
    refine ⟨by rw [if_pos h6]; exact hmain, ?_⟩
    rw [hmain]
    simp only [microsecondFallback]
    have hmic : (if 6 < ds.length then ds.take 6 else ds) = ds := if_neg (by omega)
    rw [hmic, hpadded, parseU32_of_digits _ hne2 hall hbound, hval]
  · have h6lt : 6 < ds.length := by omega
    have hmic : (if 6 < ds.length then ds.take 6 else ds) = ds.take 6 := if_pos h6lt
    have hpadded : (if ds.length < 6 then ds ++ List.replicate (6 - ds.length) '0' else ds) =
        ds := if_neg (by omega)
    have hall6 : (ds.take 6).all Char.isDigit = true := all_take ds 6 hdig
    have hlen6 : (ds.take 6).length = 6 := by
      rw [List.length_take]
      omega
    have hne6 : ds.take 6 ≠ [] := by
      intro hcon
      have hl := congrArg List.length hcon
      rw [hlen6] at hl
      simp at hl
    have hbound : digitsToNat (ds.take 6) < 4294967296 := by
      have hlt := digitsToNat_lt _ hall6
      rw [hlen6] at hlt
      omega
    have htake : ds.take (min 6 ds.length) = ds.take 6 := by
      congr 1
      omega
    have hmain : microsecondOfFrac ds = digitsToNat (ds.take 6) := by
      simp only [microsecondOfFrac]
      rw [hpadded, htake, parseU32_of_digits _ hne6 hall6 hbound]
      rfl
    refine ⟨by rw [if_neg h6]; exact hmain, ?_⟩
    rw [hmain]
    simp only [microsecondFallback]
    rw [hmic]
    have hmlen : (if (ds.take 6).length < 6 then
        ds.take 6 ++ List.replicate (6 - (ds.take 6).length) '0' else ds.take 6) = ds.take 6 :=
      if_neg (by omega)
    rw [hmlen, parseU32_of_digits _ hne6 hall6 hbound]

/-- Witness for C9 at a concrete digit run with a hypothesis to
discharge. -/
theorem c9_microseconds_witness :
    microsecondOfFrac ['4', '2'] = 420000 ∧ microsecondFallback ['4', '2'] = some 420000 := by
  have h := (c9_microseconds.2.2.2 ['4', '2'] (by decide) (by decide))
  refine ⟨?_, ?_⟩
  · rw [h.1]; decide
  · rw [h.2, h.1]; decide

/-- C2 counterexample: the strftime translator has no arm for the f
directive, so a percent-f template yields the unknown-directive fragment
.+? and not the claimed one-to-six-digit matcher. -/
theorem c2_counterexample :
    strftime_to_regex ['%', 'f'] = ".+?" ∧ (".+?" : String) ≠ "\\d\x7b1,6\x7d" :=
  ⟨rfl, by decide⟩

/-- C2 (corrected): the DateStrftime fragment is built directive by
directive with Y giving a four-digit matcher, y two digits, m d H M S one
or two digits, b and h three letters, B a letter run, a doubled percent a
literal percent, unknown directives (among them f, which the source does
not handle) the non-greedy any matcher, and literal characters
regex-escaped. -/
theorem c2_amended :
    (∀ s, strftime_to_regex ('%' :: 'Y' :: s) = "\\d\x7b4\x7d" ++ strftime_to_regex s) ∧
    (∀ s, strftime_to_regex ('%' :: 'y' :: s) = "\\d\x7b2\x7d" ++ strftime_to_regex s) ∧
    (∀ s, strftime_to_regex ('%' :: 'm' :: s) = "\\d\x7b1,2\x7d" ++ strftime_to_regex s) ∧
    (∀ s, strftime_to_regex ('%' :: 'd' :: s) = "\\d\x7b1,2\x7d" ++ strftime_to_regex s) ∧
    (∀ s, strftime_to_regex ('%' :: 'H' :: s) = "\\d\x7b1,2\x7d" ++ strftime_to_regex s) ∧
    (∀ s, strftime_to_regex ('%' :: 'M' :: s) = "\\d\x7b1,2\x7d" ++ strftime_to_regex s) ∧
    (∀ s, strftime_to_regex ('%' :: 'S' :: s) = "\\d\x7b1,2\x7d" ++ strftime_to_regex s) ∧
    (∀ s, strftime_to_regex ('%' :: 'f' :: s) = ".+?" ++ strftime_to_regex s) ∧
    (∀ s, strftime_to_regex ('%' :: 'b' :: s) = "[A-Za-z]\x7b3\x7d" ++ strftime_to_regex s) ∧
    (∀ s, strftime_to_regex ('%' :: 'h' :: s) = "[A-Za-z]\x7b3\x7d" ++ strftime_to_regex s) ∧
    (∀ s, strftime_to_regex ('%' :: 'B' :: s) = "[A-Za-z]+" ++ strftime_to_regex s) ∧
    (∀ s, strftime_to_regex ('%' :: '%' :: s) = "%" ++ strftime_to_regex s) ∧
    (∀ c s, c ∉ (['Y', 'y', 'm', 'd', 'H', 'M', 'S', 'b', 'h', 'B', 'a', 'A', 'w',
        'j', 'U', 'W', 'c', 'x', 'X', '%'] : List Char) →
      strftime_to_regex ('%' :: c :: s) = ".+?" ++ strftime_to_regex s) ∧
    (∀ c s, c ≠ '%' →
      strftime_to_regex (c :: s) = rustRegexEscape (String.mk [c]) ++ strftime_to_regex s) := by
  refine ⟨fun s => rfl, fun s => rfl, fun s => rfl, fun s => rfl, fun s => rfl, fun s => rfl,
    fun s => rfl, fun s => rfl, fun s => rfl, fun s => rfl, fun s => rfl, fun s => rfl, ?_, ?_⟩
  · intro c s hc
    simp only [List.mem_cons, List.not_mem_nil, or_false, not_or] at hc
    obtain ⟨h1, h2, h3, h4, h5, h6, h7, h8, h9, h10, h11, h12, h13, h14, h15, h16,
      h17, h18, h19, h20⟩ := hc
    simp [strftime_to_regex, strftimeDirective, h1, h2, h3, h4, h5, h6, h7, h8, h9, h10,
      h11, h12, h13, h14, h15, h16, h17, h18, h19, h20]
  · intro c s hc
    conv_lhs => rw [strftime_to_regex.eq_def]
    simp [hc]

/-- Witness for C2 discharging the hypotheses of the unknown-directive and
literal clauses at concrete characters. -/
theorem c2_amended_witness :
    strftime_to_regex ['%', 'q'] = ".+?" ++ strftime_to_regex [] ∧
    strftime_to_regex ['v'] = rustRegexEscape (String.mk ['v']) ++ strftime_to_regex [] :=
  ⟨c2_amended.2.2.2.2.2.2.2.2.2.2.2.2.1 'q' [] (by decide),
   c2_amended.2.2.2.2.2.2.2.2.2.2.2.2.2 'v' [] (by decide)⟩

/-- C3 counterexample: a Scientific field with no sign is emitted with the
sign sub-pattern of a bare optional minus, not the claimed optional
plus-or-minus class; GeneralNumber and Percentage behave the same way. -/
theorem c3_counterexample :
    to_regex_pattern { field_type := .Scientific } [] none =
      "-?\\d*\\.\\d+[eE][-+]?\\d+|nan|NAN|[-+]?inf|[-+]?INF" ∧
    (to_regex_pattern { field_type := .Scientific } [] none).data.take 5 ≠ "[+-]?".data ∧
    (to_regex_pattern { field_type := .GeneralNumber } [] none).data.take 5 ≠ "[+-]?".data ∧
    (to_regex_pattern { field_type := .Percentage } [] none).data.take 5 ≠ "[+-]?".data := by
  refine ⟨rfl, by decide, by decide, by decide⟩

/-- C3 (corrected): the explicit signs map to the claimed sub-patterns for
all six numeric types, and the default with no sign is the plus-or-minus
class for Integer, Float and NumberWithThousands but only an optional
minus for Scientific, GeneralNumber and Percentage. -/
theorem c3_amended :
    to_regex_pattern { field_type := .Integer } [] none =
      "[+-]?" ++ "(?:0[xX][0-9a-fA-F]+|0[oO][0-7]+|0[bB][01]+|[0-9]+)" ∧
    to_regex_pattern { field_type := .Integer, sign := some '+' } [] none =
      "\\+?" ++ "(?:0[xX][0-9a-fA-F]+|0[oO][0-7]+|0[bB][01]+|[0-9]+)" ∧
    to_regex_pattern { field_type := .Integer, sign := some '-' } [] none =
      "-?" ++ "(?:0[xX][0-9a-fA-F]+|0[oO][0-7]+|0[bB][01]+|[0-9]+)" ∧
    to_regex_pattern { field_type := .Integer, sign := some ' ' } [] none =
      "[- ]?" ++ "(?:0[xX][0-9a-fA-F]+|0[oO][0-7]+|0[bB][01]+|[0-9]+)" ∧
    to_regex_pattern { field_type := .Float } [] none =
      "[+-]?" ++ "(?:\\d+\\.\\d+|\\.\\d+|\\d+\\.)(?:[eE][+-]?\\d+)?" ∧
    to_regex_pattern { field_type := .Float, sign := some '+' } [] none =
      "\\+?" ++ "(?:\\d+\\.\\d+|\\.\\d+|\\d+\\.)(?:[eE][+-]?\\d+)?" ∧
    to_regex_pattern { field_type := .Float, sign := some '-' } [] none =
      "-?" ++ "(?:\\d+\\.\\d+|\\.\\d+|\\d+\\.)(?:[eE][+-]?\\d+)?" ∧
    to_regex_pattern { field_type := .Float, sign := some ' ' } [] none =
      "[- ]?" ++ "(?:\\d+\\.\\d+|\\.\\d+|\\d+\\.)(?:[eE][+-]?\\d+)?" ∧
    to_regex_pattern { field_type := .NumberWithThousands } [] none =
      "[+-]?" ++ "(?:\\d\x7b1,3\x7d(?:[.,]\\d\x7b3\x7d)*|\\d+)" ∧
    to_regex_pattern { field_type := .NumberWithThousands, sign := some '+' } [] none =
      "\\+?" ++ "(?:\\d\x7b1,3\x7d(?:[.,]\\d\x7b3\x7d)*|\\d+)" ∧
    to_regex_pattern { field_type := .NumberWithThousands, sign := some '-' } [] none =
      "-?" ++ "(?:\\d\x7b1,3\x7d(?:[.,]\\d\x7b3\x7d)*|\\d+)" ∧
    to_regex_pattern { field_type := .NumberWithThousands, sign := some ' ' } [] none =
      "[- ]?" ++ "(?:\\d\x7b1,3\x7d(?:[.,]\\d\x7b3\x7d)*|\\d+)" ∧
    to_regex_pattern { field_type := .Scientific } [] none =
      "-?" ++ "\\d*\\.\\d+[eE][-+]?\\d+|nan|NAN|[-+]?inf|[-+]?INF" ∧
    to_regex_pattern { field_type := .Scientific, sign := some '+' } [] none =
      "\\+?" ++ "\\d*\\.\\d+[eE][-+]?\\d+|nan|NAN|[-+]?inf|[-+]?INF" ∧
    to_regex_pattern { field_type := .Scientific, sign := some '-' } [] none =
      "-?" ++ "\\d*\\.\\d+[eE][-+]?\\d+|nan|NAN|[-+]?inf|[-+]?INF" ∧
    to_regex_pattern { field_type := .Scientific, sign := some ' ' } [] none =
      "[- ]?" ++ "\\d*\\.\\d+[eE][-+]?\\d+|nan|NAN|[-+]?inf|[-+]?INF" ∧
    to_regex_pattern { field_type := .GeneralNumber } [] none =
      "-?" ++ "(?:\\d+\\.\\d+|\\.\\d+|\\d+\\.|\\d+)(?:[eE][+-]?\\d+)?|nan|NAN|[-+]?inf|[-+]?INF" ∧
    to_regex_pattern { field_type := .GeneralNumber, sign := some '+' } [] none =
      "\\+?" ++ "(?:\\d+\\.\\d+|\\.\\d+|\\d+\\.|\\d+)(?:[eE][+-]?\\d+)?|nan|NAN|[-+]?inf|[-+]?INF" ∧
    to_regex_pattern { field_type := .GeneralNumber, sign := some '-' } [] none =
      "-?" ++ "(?:\\d+\\.\\d+|\\.\\d+|\\d+\\.|\\d+)(?:[eE][+-]?\\d+)?|nan|NAN|[-+]?inf|[-+]?INF" ∧
    to_regex_pattern { field_type := .GeneralNumber, sign := some ' ' } [] none =
      "[- ]?" ++ "(?:\\d+\\.\\d+|\\.\\d+|\\d+\\.|\\d+)(?:[eE][+-]?\\d+)?|nan|NAN|[-+]?inf|[-+]?INF" ∧
    to_regex_pattern { field_type := .Percentage } [] none =
      "-?" ++ "(?:\\d+\\.\\d+|\\.\\d+|\\d+)%" ∧
    to_regex_pattern { field_type := .Percentage, sign := some '+' } [] none =
      "\\+?" ++ "(?:\\d+\\.\\d+|\\.\\d+|\\d+)%" ∧
    to_regex_pattern { field_type := .Percentage, sign := some '-' } [] none =
      "-?" ++ "(?:\\d+\\.\\d+|\\.\\d+|\\d+)%" ∧
    to_regex_pattern { field_type := .Percentage, sign := some ' ' } [] none =
      "[- ]?" ++ "(?:\\d+\\.\\d+|\\.\\d+|\\d+)%" :=
  ⟨rfl, rfl, rfl, rfl, rfl, rfl, rfl, rfl, rfl, rfl, rfl, rfl,
   rfl, rfl, rfl, rfl, rfl, rfl, rfl, rfl, rfl, rfl, rfl, rfl⟩

/-- C4 (confirmed): at match time, for a custom converter whose pattern has
capturing groups, a missing, None or zero regex_group_count fails with a
value-kind error, a negative one fails with a value-kind error, and one
exceeding the counted groups fails with an index-kind error. -/
theorem c4_custom_group_count (p : String) (h : 0 < count_capturing_groups p.data) :
    validate_regex_group_count p .missing = .error .valueError ∧
    validate_regex_group_count p .noneValue = .error .valueError ∧
    validate_regex_group_count p (.intValue 0) = .error .valueError ∧
    (∀ g : Int, g < 0 → validate_regex_group_count p (.intValue g) = .error .valueError) ∧
    (∀ g : Int, (count_capturing_groups p.data : Int) < g →
      validate_regex_group_count p (.intValue g) = .error .indexError) := by
  refine ⟨?_, ?_, ?_, ?_, ?_⟩
  · simp [validate_regex_group_count, h]
  · simp [validate_regex_group_count, h]
  · simp [validate_regex_group_count, h]
  · intro g hg
    simp [validate_regex_group_count, hg]
  · intro g hg
    have hnn : (0 : Int) ≤ (count_capturing_groups p.data : Int) := Int.natCast_nonneg _
    have hg0 : ¬ g < 0 := by omega
    have hgz : ¬ (g = 0 ∧ 0 < count_capturing_groups p.data) := by
      rintro ⟨rfl, -⟩
      omega
    simp [validate_regex_group_count, hg0, hgz, hg]

/-- Witness for C4 on a one-group pattern and an excessive count. -/
theorem c4_custom_group_count_witness :
    0 < count_capturing_groups "(a)".data ∧
    validate_regex_group_count "(a)" (.intValue 2) = .error .indexError :=
  ⟨by decide, (c4_custom_group_count "(a)" (by decide)).2.2.2.2 2 (by decide)⟩

/-- C5 (confirmed): when one non-nested name appears in two fields, equal
converted values leave a single recorded value for the name and the parse
walk succeeds, while unequal converted values reject the match with no
error raised (the extractor returns the absent value). -/
theorem c5_repeated_names {α : Type} (eq : PyVal α → PyVal α → Bool) (n : String)
    (h : n.data.contains '[' = false) (v1 v2 : PyVal α) :
    (eq v1 v2 = true →
      extract_values eq [(some n, v1), (some n, v2)] = some ([], [(n, v2)])) ∧
    (eq v1 v2 = false →
      extract_values eq [(some n, v1), (some n, v2)] = none) := by
  have h2 : ('[' : Char) ∉ n.data := by simpa using h
  unfold extract_values
  constructor <;> intro he <;>
    simp [processFieldsAux, h2, lookupAssoc, assocSet, he]

/-- Witness for C5 with a concrete equality on Nat primitives. -/
theorem c5_repeated_names_witness :
    extract_values primNatEq [(some "a", PyVal.prim 1), (some "a", PyVal.prim 1)] =
      some ([], [("a", PyVal.prim 1)]) ∧
    extract_values primNatEq [(some "a", PyVal.prim 1), (some "a", PyVal.prim 2)] = none :=
  ⟨(c5_repeated_names primNatEq "a" (by decide) (PyVal.prim 1) (PyVal.prim 1)).1 (by decide),
   (c5_repeated_names primNatEq "a" (by decide) (PyVal.prim 1) (PyVal.prim 2)).2 (by decide)⟩

/-- C10 (confirmed): a Custom field with no pattern available, because no
converter was supplied for the name or the supplied converter exposes no
usable pattern string, is emitted as the non-whitespace run matcher, and a
pattern using such a field still compiles (the anchored regex wraps the
default fragment). -/
theorem c10_custom_default (converters : List (String × Option String)) (n : String)
    (spec : FieldSpec) (flag : Option Bool)
    (hty : spec.field_type = .Custom n)
    (hpat : lookupAssoc (buildCustomPatterns converters) n = none) :
    to_regex_pattern spec (buildCustomPatterns converters) flag = "\\S+" ∧
    compileRegex "\x7bx:foo\x7d" [] = .ok "^(?P<x>\\S+)$" := by
  refine ⟨?_, rfl⟩
  simp only [to_regex_pattern, hty, hpat]

/-- Witness for C10 with a converter present but exposing no pattern. -/
theorem c10_custom_default_witness :
    to_regex_pattern { field_type := .Custom "foo" }
        (buildCustomPatterns [("foo", none)]) none = "\\S+" ∧
    compileRegex "\x7bx:foo\x7d" [] = .ok "^(?P<x>\\S+)$" :=
  c10_custom_default [("foo", none)] "foo" { field_type := .Custom "foo" } none rfl (by decide)

theorem width_fragment (w : Nat) (cps : List (String × String)) (o : Option Bool) :
    to_regex_pattern { field_type := .String, width := some w } cps o =
      match o with
      | some false => ".\x7b" ++ toString w ++ "\x7d"
      | _ => ".\x7b" ++ toString w ++ ",\x7d" := by
  cases o with
  | none => rfl
  | some b => cases b <;> rfl

theorem nextFieldGreedyAux_cons_rbrace (fuel : Nat) (tail : List Char) :
    nextFieldGreedyAux (fuel + 1) (rbrace :: tail) =
      match tail.dropWhile isWs with
      | [] => none
      | d :: rest2 =>
        if d = lbrace then
          match rest2 with
          | [] => some true
          | e :: rest3 =>
            if e = lbrace then nextFieldGreedyAux fuel rest3
            else if e = rbrace then some false
            else some true
        else none := by
  have h1 : (rbrace :: tail).dropWhile isWs = rbrace :: tail :=
    List.dropWhile_cons_of_neg (by decide)
  simp only [nextFieldGreedyAux, h1]
  simp

/-- C1 counterexample: in both patterns the second (and last) field is the
bare empty field, yet the first field is emitted as at-least-width when a
non-whitespace literal stands between the fields and as exact-width when
only whitespace does, so the decision does not depend only on whether the
next field is a bare empty field. -/
theorem c1_counterexample :
    compileRegex "\x7b:10\x7dx\x7b\x7d" [] = .ok "^(.\x7b10,\x7d)x(.+?)$" ∧
    compileRegex "\x7b:10\x7d \x7b\x7d" [] = .ok "^(.\x7b10\x7d)\\s*(.+?)$" ∧
    compileSpecs "\x7b:10\x7dx\x7b\x7d" [] =
      .ok [{ field_type := .String, width := some 10 }, {}] ∧
    compileSpecs "\x7b:10\x7d \x7b\x7d" [] =
      .ok [{ field_type := .String, width := some 10 }, {}] :=
  ⟨rfl, rfl, rfl, rfl⟩

/-- C1 (corrected): a width-only string field is emitted as exact-width
precisely when the lookahead that skips only whitespace finds a bare empty
field next: with whitespace-only separation before a bare field the width
is exact; when any non-whitespace separator character intervenes, when the
field is last, or when the next field is not bare, the at-least form is
emitted. -/
theorem c1_amended (w : Nat) (cps : List (String × String)) (sep rest : List Char)
    (hb : ∀ c ∈ sep, c ≠ lbrace ∧ c ≠ rbrace) :
    ((∀ c ∈ sep, isWs c = true) →
      to_regex_pattern { field_type := .String, width := some w } cps
          (next_field_is_greedy (rbrace :: (sep ++ lbrace :: rbrace :: rest))) =
        ".\x7b" ++ toString w ++ "\x7d") ∧
    ((∃ c ∈ sep, isWs c = false) →
      to_regex_pattern { field_type := .String, width := some w } cps
          (next_field_is_greedy (rbrace :: (sep ++ rest))) =
        ".\x7b" ++ toString w ++ ",\x7d") ∧
    (to_regex_pattern { field_type := .String, width := some w } cps
        (next_field_is_greedy (rbrace :: sep)) =
      ".\x7b" ++ toString w ++ ",\x7d") ∧
    (∀ c rest2, (∀ d ∈ sep, isWs d = true) → c ≠ lbrace → c ≠ rbrace →
      to_regex_pattern { field_type := .String, width := some w } cps
          (next_field_is_greedy (rbrace :: (sep ++ lbrace :: c :: rest2))) =
        ".\x7b" ++ toString w ++ ",\x7d") := by
  refine ⟨?_, ?_, ?_, ?_⟩
  · intro hws
    have hdw : (sep ++ lbrace :: rbrace :: rest).dropWhile isWs = lbrace :: rbrace :: rest := by
      rw [dropWhile_append_all _ _ hws]
      exact List.dropWhile_cons_of_neg (by decide)
    have hn : next_field_is_greedy (rbrace :: (sep ++ lbrace :: rbrace :: rest)) = some false := by
      unfold next_field_is_greedy
      rw [nextFieldGreedyAux_cons_rbrace, hdw]
      simp [show rbrace ≠ lbrace from by decide]
    rw [hn, width_fragment]
  · intro hex
    obtain ⟨c0, r0, heq, hmem, hf⟩ := dropWhile_head_in sep rest hex
    have hc0 : c0 ≠ lbrace := (hb c0 hmem).1
    have hn : next_field_is_greedy (rbrace :: (sep ++ rest)) = none := by
      unfold next_field_is_greedy
      rw [nextFieldGreedyAux_cons_rbrace, heq]
      simp [hc0]
    rw [hn, width_fragment]
  · cases hdc : sep.dropWhile isWs with
    | nil =>
      have hn : next_field_is_greedy (rbrace :: sep) = none := by
        unfold next_field_is_greedy
        rw [nextFieldGreedyAux_cons_rbrace, hdc]
      rw [hn, width_fragment]
    | cons c0 r0 =>
      have hmf := dropWhile_eq_cons_mem sep c0 r0 hdc
      have hc0 : c0 ≠ lbrace := (hb c0 hmf.1).1
      have hn : next_field_is_greedy (rbrace :: sep) = none := by
        unfold next_field_is_greedy
        rw [nextFieldGreedyAux_cons_rbrace, hdc]
        simp [hc0]
      rw [hn, width_fragment]
  · intro c rest2 hws hcl hcr
    have hdw : (sep ++ lbrace :: c :: rest2).dropWhile isWs = lbrace :: c :: rest2 := by
      rw [dropWhile_append_all _ _ hws]
      exact List.dropWhile_cons_of_neg (by decide)
    have hn : next_field_is_greedy (rbrace :: (sep ++ lbrace :: c :: rest2)) = some true := by
      unfold next_field_is_greedy
      rw [nextFieldGreedyAux_cons_rbrace, hdw]
      simp [hcl, hcr]
    rw [hn, width_fragment]

/-- Witness for C1 at a one-space separator before a bare field. -/
theorem c1_amended_witness :
    to_regex_pattern { field_type := .String, width := some 7 } []
        (next_field_is_greedy (rbrace :: ([' '] ++ lbrace :: rbrace :: []))) =
      ".\x7b7\x7d" :=
  (c1_amended 7 [] [' '] [] (by decide)).1 (by decide)

theorem validateNamesAux_isOk_iff (l : List (Option String × FieldType)) :
    ∀ acc : List (String × FieldType),
      (validateNamesAux acc l).isOk = true ↔
      ((∀ n t1 t2, (some n, t1) ∈ l → (some n, t2) ∈ l → tagOf t1 = tagOf t2) ∧
       (∀ n t t0, (some n, t) ∈ l → lookupAssoc acc n = some t0 → tagOf t = tagOf t0)) := by
  induction l with
  | nil =>
    intro acc
    simp [validateNamesAux, Except.isOk, Except.toBool]
  | cons hd tl ih =>
    intro acc
    obtain ⟨n?, t⟩ := hd
    cases n? with
    | none =>
      have hstep : validateNamesAux acc ((none, t) :: tl) = validateNamesAux acc tl := rfl
      rw [hstep, ih acc]
      constructor
      · rintro ⟨hp, hq⟩
        refine ⟨?_, ?_⟩
        · intro n t1 t2 h1 h2
          rcases List.mem_cons.mp h1 with heq1 | h1
          · exact absurd heq1 (by simp)
          rcases List.mem_cons.mp h2 with heq2 | h2
          · exact absurd heq2 (by simp)
          exact hp n t1 t2 h1 h2
        · intro n t' t0 h1 hl
          rcases List.mem_cons.mp h1 with heq1 | h1
          · exact absurd heq1 (by simp)
          exact hq n t' t0 h1 hl
      · rintro ⟨hp, hq⟩
        exact ⟨fun n t1 t2 h1 h2 => hp n t1 t2 (List.mem_cons_of_mem _ h1)
                 (List.mem_cons_of_mem _ h2),
               fun n t' t0 h1 hl => hq n t' t0 (List.mem_cons_of_mem _ h1) hl⟩
    | some m =>
      cases hl : lookupAssoc acc m with
      | some t0 =>
        by_cases hm : field_types_match t0 t = true
        · have htag : tagOf t = tagOf t0 := by
            have h' : tagOf t0 = tagOf t := by simpa [field_types_match] using hm
            omega
          have hstep : validateNamesAux acc ((some m, t) :: tl) = validateNamesAux acc tl := by
            simp [validateNamesAux, checkFieldName, hl, hm]
          rw [hstep, ih acc]
          constructor
          · rintro ⟨hp, hq⟩
            refine ⟨?_, ?_⟩
            · intro n t1 t2 h1 h2
              rcases List.mem_cons.mp h1 with heq1 | h1
              · simp only [Prod.mk.injEq, Option.some.injEq] at heq1
                rcases List.mem_cons.mp h2 with heq2 | h2
                · simp only [Prod.mk.injEq, Option.some.injEq] at heq2
                  rw [heq1.2, heq2.2]
                · have h2t : tagOf t2 = tagOf t0 := by
                    apply hq n t2 t0 h2
                    rw [heq1.1, hl]
                  rw [heq1.2]
                  omega
              · rcases List.mem_cons.mp h2 with heq2 | h2
                · simp only [Prod.mk.injEq, Option.some.injEq] at heq2
                  have h1t : tagOf t1 = tagOf t0 := by
                    apply hq n t1 t0 h1
                    rw [heq2.1, hl]
                  rw [heq2.2]
                  omega
                · exact hp n t1 t2 h1 h2
            · intro n t' t0' h1 hl'
              rcases List.mem_cons.mp h1 with heq1 | h1
              · simp only [Prod.mk.injEq, Option.some.injEq] at heq1
                rw [heq1.1, hl] at hl'
                obtain rfl := Option.some.inj hl'
                rw [heq1.2]
                exact htag
              · exact hq n t' t0' h1 hl'
          · rintro ⟨hp, hq⟩
            exact ⟨fun n t1 t2 h1 h2 => hp n t1 t2 (List.mem_cons_of_mem _ h1)
                     (List.mem_cons_of_mem _ h2),
                   fun n t' t0' h1 hl' => hq n t' t0' (List.mem_cons_of_mem _ h1) hl'⟩
        · have hstep : validateNamesAux acc ((some m, t) :: tl) =
              .error ("Repeated name " ++ m ++ " with mismatched types") := by
            simp [validateNamesAux, checkFieldName, hl, hm]
          rw [hstep]
          constructor
          · intro hcon
            simp [Except.isOk, Except.toBool] at hcon
          · rintro ⟨hp, hq⟩
            exfalso
            have h1 : tagOf t = tagOf t0 := hq m t t0 (by simp) hl
            apply hm
            simp only [field_types_match, decide_eq_true_eq]
            omega
      | none =>
        have hstep : validateNamesAux acc ((some m, t) :: tl) =
            validateNamesAux ((m, t) :: acc) tl := by
          simp [validateNamesAux, checkFieldName, hl]
        rw [hstep, ih ((m, t) :: acc)]
        have hlk : ∀ n, lookupAssoc ((m, t) :: acc) n =
            if m = n then some t else lookupAssoc acc n := fun n => rfl
        constructor
        · rintro ⟨hp, hq⟩
          refine ⟨?_, ?_⟩
          · intro n t1 t2 h1 h2
            rcases List.mem_cons.mp h1 with heq1 | h1
            · simp only [Prod.mk.injEq, Option.some.injEq] at heq1
              rcases List.mem_cons.mp h2 with heq2 | h2
              · simp only [Prod.mk.injEq, Option.some.injEq] at heq2
                rw [heq1.2, heq2.2]
              · have h2t : tagOf t2 = tagOf t := by
                  apply hq n t2 t h2
                  rw [hlk, if_pos heq1.1.symm]
                rw [heq1.2]
                omega
            · rcases List.mem_cons.mp h2 with heq2 | h2
              · simp only [Prod.mk.injEq, Option.some.injEq] at heq2
                have h1t : tagOf t1 = tagOf t := by
                  apply hq n t1 t h1
                  rw [hlk, if_pos heq2.1.symm]
                rw [heq2.2]
                omega
              · exact hp n t1 t2 h1 h2
          · intro n t' t0 h1 hl'
            rcases List.mem_cons.mp h1 with heq1 | h1
            · simp only [Prod.mk.injEq, Option.some.injEq] at heq1
              rw [heq1.1, hl] at hl'
              cases hl'
            · by_cases hnm : m = n
              · rw [← hnm, hl] at hl'
                cases hl'
              · have hln : lookupAssoc ((m, t) :: acc) n = some t0 := by
                  rw [hlk, if_neg hnm]
                  exact hl'
                exact hq n t' t0 h1 hln
        · rintro ⟨hp, hq⟩
          refine ⟨?_, ?_⟩
          · intro n t1 t2 h1 h2
            exact hp n t1 t2 (List.mem_cons_of_mem _ h1) (List.mem_cons_of_mem _ h2)
          · intro n t' t0 h1 hl'
            rw [hlk] at hl'
            by_cases hnm : m = n
            · rw [if_pos hnm] at hl'
              obtain rfl := Option.some.inj hl'
              exact hp n t' t (List.mem_cons_of_mem _ h1)
                (by rw [hnm]; exact List.mem_cons_self _ _)
            · rw [if_neg hnm] at hl'
              exact hq n t' t0 (List.mem_cons_of_mem _ h1) hl'

/-- C6 (confirmed): the compile-time repeated-name validation fails exactly
when the same original name occurs in two fields whose type discriminants
differ; when every repetition of a name carries the same discriminant
(Custom types all share one discriminant) this validation succeeds. -/
theorem c6_repeated_name_types (l : List (Option String × FieldType)) :
    (validate_repeated_names l).isOk = false ↔
      ∃ n t1 t2, (some n, t1) ∈ l ∧ (some n, t2) ∈ l ∧ tagOf t1 ≠ tagOf t2 := by
  have h := validateNamesAux_isOk_iff l []
  have hq : ∀ n t t0, (some n, t) ∈ l →
      lookupAssoc ([] : List (String × FieldType)) n = some t0 → tagOf t = tagOf t0 := by
    intro n t t0 _ hl
    cases hl
  rw [validate_repeated_names]
  constructor
  · intro hfalse
    by_contra hno
    push_neg at hno
    have htrue := h.mpr ⟨fun n t1 t2 h1 h2 => hno n t1 t2 h1 h2, hq⟩
    rw [htrue] at hfalse
    cases hfalse
  · rintro ⟨n, t1, t2, h1, h2, hne⟩
    cases hok : (validateNamesAux [] l).isOk
    · rfl
    · exact absurd ((h.mp hok).1 n t1 t2 h1 h2) hne

/-- Witness for C6 at a concrete repeated name with mismatched types. -/
theorem c6_repeated_name_types_witness :
    (validate_repeated_names
      [(some "a", FieldType.Integer), (some "a", FieldType.String)]).isOk = false :=
  (c6_repeated_name_types _).mpr
    ⟨"a", FieldType.Integer, FieldType.String, by simp, by simp, by decide⟩

theorem sum_map_one_add {β : Type} (l : List β) (f : β → Nat) :
    (l.map (fun a => 1 + f a)).sum = l.length + (l.map f).sum := by
  induction l with
  | nil => simp
  | cons a t ih =>
    simp only [List.map_cons, List.sum_cons, List.length_cons, ih]
    omega

/-- C7 counterexample: compiling a right-aligned width field followed by a
positional integer field yields a regex with exactly two capturing groups,
yet the extractor computes capture index 3 for the integer field because
the right-alignment field (neither a left nor a center alignment)
contributed one to the offset while its width fragment contains no inner
group, so the index points past every group instead of at the primary
group 2. -/
theorem c7_counterexample :
    compileRegex "\x7b:>5\x7d\x7b:d\x7d" [] =
      .ok "^(.\x7b5,\x7d)([+-]?(?:0[xX][0-9a-fA-F]+|0[oO][0-7]+|0[bB][01]+|[0-9]+))$" ∧
    compileSpecs "\x7b:>5\x7d\x7b:d\x7d" [] =
      .ok [{ field_type := .String, width := some 5, alignment := some '>' },
           { field_type := .Integer }] ∧
    count_capturing_groups
      ("^(.\x7b5,\x7d)([+-]?(?:0[xX][0-9a-fA-F]+|0[oO][0-7]+|0[bB][01]+|[0-9]+))$").data = 2 ∧
    capIndexUsed [{ field_type := .String, width := some 5, alignment := some '>' },
      { field_type := .Integer }] [] 1 = 3 ∧
    offsetContribution { field_type := .String, alignment := some '>' } [] = 1 :=
  ⟨rfl, rfl, by decide, by decide, by decide⟩

/-- C7 (corrected): every field with an alignment contributes one to the
running offset (not only left and center alignment) and a custom field
contributes the number of groups counted in its converter pattern (not
regex_group_count); the capture index of a positional field addresses that
field's primary capture group exactly when each earlier field's offset
contribution equals the number of capturing groups its emitted fragment
actually contains. -/
theorem c7_amended (l : List (FieldSpec × Option Bool)) (cps : List (String × String))
    (converters : List (String × Option String)) (i : Nat) (hi : i ≤ l.length)
    (h : ∀ p ∈ l.take i,
      offsetContribution p.1 converters =
        count_capturing_groups (to_regex_pattern p.1 cps p.2).data) :
    capIndexUsed (l.map Prod.fst) converters i = primaryGroupIndex l cps i := by
  unfold capIndexUsed primaryGroupIndex
  rw [← List.map_take, List.map_map, sum_map_one_add]
  have hlen : (l.take i).length = i := by
    rw [List.length_take]
    omega
  rw [hlen]
  have hmap : (l.take i).map ((fun s => offsetContribution s converters) ∘ Prod.fst) =
      (l.take i).map
        (fun p => count_capturing_groups (to_regex_pattern p.1 cps p.2).data) :=
    List.map_congr_left (fun p hp => h p hp)
  rw [hmap]
  omega

/-- Witness for C7 on a single plain string field whose contribution
matches its fragment. -/
theorem c7_amended_witness :
    capIndexUsed ([({ field_type := FieldType.String }, (none : Option Bool))].map Prod.fst)
        [] 1 =
      primaryGroupIndex [({ field_type := FieldType.String }, (none : Option Bool))] [] 1 :=
  c7_amended [({ field_type := .String }, (none : Option Bool))] [] [] 1 (by decide) (by decide)

end FormatParse
